import Mathlib

/-!
Shallow embedding of the TCG event-log check engine of tcglog-parser
(`check.go`): the placement policy, separator classification, structural
payload validation, measured-byte resolution, digest cross-check and the
driver loop, together with theorems settling the specification claims.

Bytes are modelled as `List Nat` with the convention that a well-formed
byte holds a value below 256 (`ValidBytes`). Go `panic` is modelled by
`Option`: a `none` result marks a contract-violation panic. The Go map
`Event.Digests` is modelled by one enumeration order of its pairs, i.e. a
`List (AlgorithmId × Bytes)`; map-iteration nondeterminism is captured by
quantifying over permutations of that list.
-/

namespace TCGLog

abbrev Bytes := List Nat

/-- Every byte value is in range. -/
def ValidBytes (bs : Bytes) : Prop := ∀ b ∈ bs, b < 256

instance (bs : Bytes) : Decidable (ValidBytes bs) := by
  unfold ValidBytes; infer_instance

/-- The closed algorithm set of the log format; `other` stands for any
algorithm identifier outside the four supported ones. -/
inductive AlgorithmId where
  | sha1
  | sha256
  | sha384
  | sha512
  | other (n : Nat)
deriving DecidableEq, Repr

/-- The four algorithm identifiers the hasher supports. -/
def supportedAlg : AlgorithmId → Bool
  | .sha1 => true
  | .sha256 => true
  | .sha384 => true
  | .sha512 => true
  | .other _ => false

/-- `binary.ByteOrder`: little- or big-endian. -/
inductive ByteOrder where
  | little
  | big
deriving DecidableEq, Repr

/-- `order.PutUint32`: the 4-byte encoding of a 32-bit value. -/
def putUint32 (order : ByteOrder) (v : Nat) : Bytes :=
  match order with
  | .little => [v % 256, v / 256 % 256, v / 65536 % 256, v / 16777216 % 256]
  | .big => [v / 16777216 % 256, v / 65536 % 256, v / 256 % 256, v % 256]

/-- Reading a 32-bit word from the first four bytes of a buffer in a given
byte order (the Go source performs this read through `unsafe.Pointer` in
the host machine's native order, which is why the order is a parameter). -/
def getUint32 (order : ByteOrder) (bs : Bytes) : Nat :=
  match order with
  | .little =>
      bs.getD 0 0 + bs.getD 1 0 * 256 + bs.getD 2 0 * 65536 + bs.getD 3 0 * 16777216
  | .big =>
      bs.getD 3 0 + bs.getD 2 0 * 256 + bs.getD 1 0 * 65536 + bs.getD 0 0 * 16777216

/-- The event types named by the engine; `other` stands for any type the
placement table does not mention. -/
inductive EventType where
  | postCode
  | noAction
  | separator
  | action
  | eventTag
  | sCRTMContents
  | sCRTMVersion
  | cpuMicrocode
  | platformConfigFlags
  | tableOfDevices
  | compactHash
  | ipl
  | iplPartitionData
  | nonhostCode
  | nonhostConfig
  | nonhostInfo
  | omitBootDeviceEvents
  | efiVariableDriverConfig
  | efiVariableBoot
  | efiBootServicesApplication
  | efiBootServicesDriver
  | efiRuntimeServicesDriver
  | efiAction
  | efiPlatformFirmwareBlob
  | efiHandoffTables
  | efiHCRTMEvent
  | efiVariableAuthority
  | efiVariableBoot2
  | efiGPTEvent
  | other (n : Nat)
deriving DecidableEq, Repr

/-- Modelled from the spec: `Spec` is an ordered enumeration of TCG
profile versions; rules guarded by "older profile" hold at or below the
PC-Client profile. -/
abbrev Spec := Nat

/-- Modelled from the spec: the older PC-Client profile version. -/
def SpecPCClient : Spec := 1

/-- The closed set of decoded event-payload variants the resolver
dispatches on. Each variant exposes its full raw encoded byte form;
`efiVariable` additionally exposes the variable's value sub-field,
`kernelCmdline` and `grubCmd` the decoded text. -/
inductive EventData where
  | opaqueEventData (bs : Bytes)
  | asciiString (bs : Bytes)
  | efiVariable (variableData : Bytes) (encoded : Bytes)
  | efiGPT (encoded : Bytes)
  | kernelCmdline (cmdline : Bytes) (encoded : Bytes)
  | grubCmd (cmd : Bytes) (encoded : Bytes)
  | otherData (bs : Bytes)
deriving DecidableEq, Repr

/-- `EventData.Bytes()`: the full raw encoded byte form. -/
def EventData.bytes : EventData → Bytes
  | .opaqueEventData bs => bs
  | .asciiString bs => bs
  | .efiVariable _ encoded => encoded
  | .efiGPT encoded => encoded
  | .kernelCmdline _ encoded => encoded
  | .grubCmd _ encoded => encoded
  | .otherData bs => bs

/-- One log record. `digests` is one enumeration order of the Go map
`AlgorithmId → Digest`. -/
structure Event where
  pcrIndex : Nat
  eventType : EventType
  digests : List (AlgorithmId × Bytes)
  data : EventData
deriving DecidableEq, Repr

/-- `LogCheckOptions`. -/
structure LogCheckOptions where
  enableGrub : Bool
  efiVariableBootQuirk : Bool
deriving DecidableEq, Repr

/-- The cryptographic hash primitives are external collaborators; the
engine is parametric in them. Each field maps an input buffer to the
fixed-length digest of the corresponding algorithm. -/
structure HashModel where
  sha1 : Bytes → Bytes
  sha256 : Bytes → Bytes
  sha384 : Bytes → Bytes
  sha512 : Bytes → Bytes

/-- `hash(data, alg)`: dispatch on the algorithm id; the default branch of
the Go switch panics, modelled as `none`. -/
def hash (hm : HashModel) (data : Bytes) (alg : AlgorithmId) : Option Bytes :=
  match alg with
  | .sha1 => some (hm.sha1 data)
  | .sha256 => some (hm.sha256 data)
  | .sha384 => some (hm.sha384 data)
  | .sha512 => some (hm.sha512 data)
  | .other _ => none

/-- `separatorEventErrorValue`. -/
def separatorEventErrorValue : Nat := 1

/-- `separatorEventNormalValues`. -/
def separatorEventNormalValues : List Nat := [0, 4294967295]

/-- Modelled from the spec: the process-wide per-algorithm zero-digest
table (`zeroDigests`, declared outside the shown source): the all-zero
digest of each supported algorithm's fixed length; absent for any other
algorithm id (a Go map lookup miss yields nil). -/
def zeroDigests : AlgorithmId → Option Bytes
  | .sha1 => some (List.replicate 20 0)
  | .sha256 => some (List.replicate 32 0)
  | .sha384 => some (List.replicate 48 0)
  | .sha512 => some (List.replicate 64 0)
  | .other _ => none

/-- `isSeparatorEventError`: panics (`none`) unless the event is a
Separator; otherwise inspects only the first pair of the digest-map
enumeration (the Go loop breaks after one iteration) and reports whether
that recorded digest equals the hash of the 32-bit error value encoded in
the log's byte order. A `none` also arises if the inspected algorithm is
outside the hasher's closed set. -/
def isSeparatorEventError (hm : HashModel) (event : Event) (order : ByteOrder) :
    Option Bool :=
  if event.eventType ≠ EventType.separator then
    none
  else
    let errorValue := putUint32 order separatorEventErrorValue
    match event.digests with
    | [] => some false
    | (alg, digest) :: _ =>
        match hash hm errorValue alg with
        | none => none
        | some h => some (digest = h)

/-- `isExpectedEventTypeForIndex`: the PCR-placement policy table. -/
def isExpectedEventTypeForIndex (t : EventType) (i : Nat) (spec : Spec) : Bool :=
  if i > 7 then
    true
  else
    match t with
    | .postCode | .sCRTMContents | .sCRTMVersion | .nonhostCode
    | .nonhostInfo | .efiHCRTMEvent => i = 0
    | .noAction => i = 0 ∨ i = 6
    | .action | .efiAction => 1 ≤ i ∧ i ≤ 6
    | .eventTag => i ≤ 4 ∧ spec ≤ SpecPCClient
    | .cpuMicrocode | .platformConfigFlags | .tableOfDevices | .nonhostConfig
    | .efiVariableBoot | .efiHandoffTables => i = 1
    | .compactHash => 4 ≤ i
    | .ipl => i = 4 ∧ spec ≤ SpecPCClient
    | .iplPartitionData => i = 5 ∧ spec ≤ SpecPCClient
    | .omitBootDeviceEvents => i = 4
    | .efiVariableDriverConfig => i = 1 ∨ i = 3 ∨ i = 5 ∨ i = 7
    | .efiBootServicesApplication => i = 2 ∨ i = 4
    | .efiBootServicesDriver | .efiRuntimeServicesDriver => i = 0 ∨ i = 2
    | .efiGPTEvent => i = 5
    | .efiPlatformFirmwareBlob => i = 0 ∨ i = 2 ∨ i = 4
    | .efiVariableAuthority => i = 7
    | _ => true

/-- Structural-validation and decode error values (`error` values built by
`checkEventData` and the decoder). -/
inductive DataErr where
  | unexpectedSize (s : Nat)
  | unexpectedSeparatorContents
  | unexpectedOmitBootContents
  | unexpectedHCRTMContents
  | decode (n : Nat)
deriving DecidableEq, Repr

/-- ASCII bytes of the literal "BOOT ATTEMPTS OMITTED". -/
def bootAttemptsOmittedBytes : Bytes :=
  [66, 79, 79, 84, 32, 65, 84, 84, 69, 77, 80, 84, 83, 32, 79, 77, 73, 84, 84, 69, 68]

/-- ASCII bytes of the literal "HCRTM". -/
def hcrtmBytes : Bytes := [72, 67, 82, 84, 77]

/-- `checkEventData`: structural well-formedness of the payloads with a
fixed encoding. The outer `none` marks a panic propagated from
`isSeparatorEventError`; the inner value is the returned `error` (`none`
for a pass). `hostOrder` is the machine's native byte order used by the
Go source's `unsafe.Pointer` read of the separator payload. -/
def checkEventData (hm : HashModel) (event : Event) (order hostOrder : ByteOrder) :
    Option (Option DataErr) :=
  match event.eventType with
  | .separator =>
      match isSeparatorEventError hm event order with
      | none => none
      | some true => some none
      | some false =>
          let s := event.data.bytes.length
          if s ≠ 4 then
            some (some (.unexpectedSize s))
          else if separatorEventNormalValues.contains (getUint32 hostOrder event.data.bytes) then
            some none
          else
            some (some .unexpectedSeparatorContents)
  | .compactHash =>
      let s := event.data.bytes.length
      if s = 4 then some none else some (some (.unexpectedSize s))
  | .omitBootDeviceEvents =>
      if event.data.bytes = bootAttemptsOmittedBytes then some none
      else some (some .unexpectedOmitBootContents)
  | .efiHCRTMEvent =>
      if event.data.bytes = hcrtmBytes then some none
      else some (some .unexpectedHCRTMContents)
  | _ => some none

/-- `isExpectedDigestValue`: the expected digest is the zero digest for
NoAction events, else the hash of the resolved measured bytes when they
exist, else absent (in which case the recorded digest is accepted). The
outer `none` marks the hasher's panic on an unsupported algorithm. -/
def isExpectedDigestValue (hm : HashModel) (digest : Bytes) (t : EventType)
    (alg : AlgorithmId) (measuredBytes : Option Bytes) :
    Option (Bool × Option Bytes) :=
  let expectedPanic : Option (Option Bytes) :=
    if t = EventType.noAction then
      some (zeroDigests alg)
    else
      match measuredBytes with
      | some mb =>
          match hash hm mb alg with
          | none => none
          | some h => some (some h)
      | none => some none
  match expectedPanic with
  | none => none
  | some none => some (true, none)
  | some (some e) => some (decide (digest = e), some e)

/-- `determineMeasuredBytes`: resolves the canonical byte sequence whose
hash the recorded digests are expected to equal, or `some none` when no
expectation exists. The outer `none` marks a panic propagated from
`isSeparatorEventError`. -/
def determineMeasuredBytes (hm : HashModel) (event : Event) (order : ByteOrder)
    (options : LogCheckOptions) : Option (Option Bytes) :=
  let phase1 : Option (Option Bytes) :=
    match event.data with
    | .opaqueEventData bs =>
        match event.eventType with
        | .eventTag | .sCRTMVersion | .platformConfigFlags | .tableOfDevices
        | .nonhostInfo | .omitBootDeviceEvents => some (some bs)
        | .separator =>
            match isSeparatorEventError hm event order with
            | none => none
            | some true => some none
            | some false => some (some bs)
        | _ => some none
    | .asciiString bs =>
        match event.eventType with
        | .action | .efiAction => some (some bs)
        | _ => some none
    | .efiVariable variableData encoded =>
        if event.eventType = EventType.efiVariableBoot ∧
            options.efiVariableBootQuirk = false then
          some (some variableData)
        else
          some (some encoded)
    | .efiGPT encoded => some (some encoded)
    | .kernelCmdline cmdline _ => some (some cmdline)
    | .grubCmd cmd _ => some (some cmd)
    | .otherData _ => some none
  match phase1 with
  | none => none
  | some (some out) => some (some out)
  | some none =>
      if event.eventType = EventType.separator then
        some (some (putUint32 order separatorEventErrorValue))
      else
        some none

/-- The three report-entry kinds. Each holds its source event. -/
inductive ReportEntry where
  | unexpectedEventType (event : Event)
  | invalidEventData (event : Event) (err : DataErr)
  | unexpectedDigestValue (event : Event) (algorithm : AlgorithmId) (expected : Bytes)
deriving DecidableEq, Repr

/-- The digest cross-check loop body over the digest-map enumeration:
one `UnexpectedDigestValue` per pair whose check fails, in enumeration
order. `none` marks a panic from the hasher. -/
def checkDigestList (hm : HashModel) (event : Event) (measuredBytes : Option Bytes) :
    List (AlgorithmId × Bytes) → Option (List ReportEntry)
  | [] => some []
  | (alg, digest) :: rest =>
      match isExpectedDigestValue hm digest event.eventType alg measuredBytes with
      | none => none
      | some (ok, expected) =>
          match checkDigestList hm event measuredBytes rest with
          | none => none
          | some entries =>
              if ok then some entries
              else some (.unexpectedDigestValue event alg (expected.getD []) :: entries)

/-- `checkEventDigests`. -/
def checkEventDigests (hm : HashModel) (event : Event) (order : ByteOrder)
    (options : LogCheckOptions) : Option (List ReportEntry) :=
  match determineMeasuredBytes hm event order options with
  | none => none
  | some measuredBytes => checkDigestList hm event measuredBytes event.digests

/-- `checkEvent`: placement check, decode-error recording, structural
check, digest cross-check, appending entries in that fixed order. -/
def checkEvent (hm : HashModel) (event : Event) (dataErr : Option DataErr)
    (spec : Spec) (order hostOrder : ByteOrder) (options : LogCheckOptions) :
    Option (List ReportEntry) :=
  let l1 : List ReportEntry :=
    if isExpectedEventTypeForIndex event.eventType event.pcrIndex spec then []
    else [.unexpectedEventType event]
  let l2 : List ReportEntry :=
    match dataErr with
    | some e => [.invalidEventData event e]
    | none => []
  match checkEventData hm event order hostOrder with
  | none => none
  | some errOpt =>
      let l3 : List ReportEntry :=
        match errOpt with
        | some e => [.invalidEventData event e]
        | none => []
      match checkEventDigests hm event order options with
      | none => none
      | some l4 => some (l1 ++ l2 ++ l3 ++ l4)

/-- One answer of the external event stream (`log.nextEventInternal`):
an event with an optional recoverable decode error, clean end-of-stream,
or a fatal stream error. -/
inductive PullResult where
  | ev (event : Event) (decodeErr : Option DataErr)
  | eofSignal
  | fatal (err : Nat)
deriving DecidableEq, Repr

/-- Whether a pull answer terminates the driver loop. -/
def isTerminator : PullResult → Bool
  | .ev _ _ => false
  | .eofSignal => true
  | .fatal _ => true

/-- The driver's outcome: the accumulated report on success, the stream
error (and no report) on a hard failure. -/
inductive CheckOutcome where
  | ok (report : List ReportEntry)
  | fail (err : Nat)
deriving DecidableEq, Repr

/-- The driver loop of `checkLog` over a stream of pull answers, carrying
the accumulated report. `none` marks either a panic inside a check or a
stream that was exhausted without a terminating answer (which a real
stream never does). -/
def checkLogAux (hm : HashModel) (spec : Spec) (order hostOrder : ByteOrder)
    (options : LogCheckOptions) (acc : List ReportEntry) :
    List PullResult → Option CheckOutcome
  | [] => none
  | .eofSignal :: _ => some (.ok acc)
  | .fatal err :: _ => some (.fail err)
  | .ev event decodeErr :: rest =>
      match checkEvent hm event decodeErr spec order hostOrder options with
      | none => none
      | some entries => checkLogAux hm spec order hostOrder options (acc ++ entries) rest

/-- `checkLog`: the driver starts from an empty report. -/
def checkLog (hm : HashModel) (spec : Spec) (order hostOrder : ByteOrder)
    (options : LogCheckOptions) (pulls : List PullResult) : Option CheckOutcome :=
  checkLogAux hm spec order hostOrder options [] pulls

/-- The placement table exactly as the specification words it, bullet by
bullet, to be compared with the source's `isExpectedEventTypeForIndex`:
indices above 7 are always valid; for indices 0-7 each listed event type
has its own permitted set, and any other type is valid. -/
def placementSpecTable (t : EventType) (i : Nat) (spec : Spec) : Bool :=
  if 7 < i then
    true
  else
    match t with
    | .postCode => i = 0
    | .sCRTMContents => i = 0
    | .sCRTMVersion => i = 0
    | .nonhostCode => i = 0
    | .nonhostInfo => i = 0
    | .efiHCRTMEvent => i = 0
    | .noAction => i ∈ [0, 6]
    | .action => 1 ≤ i ∧ i ≤ 6
    | .efiAction => 1 ≤ i ∧ i ≤ 6
    | .eventTag => i ≤ 4 ∧ spec ≤ SpecPCClient
    | .cpuMicrocode => i = 1
    | .platformConfigFlags => i = 1
    | .tableOfDevices => i = 1
    | .nonhostConfig => i = 1
    | .efiVariableBoot => i = 1
    | .efiHandoffTables => i = 1
    | .compactHash => 4 ≤ i
    | .ipl => i = 4 ∧ spec ≤ SpecPCClient
    | .iplPartitionData => i = 5 ∧ spec ≤ SpecPCClient
    | .omitBootDeviceEvents => i = 4
    | .efiVariableDriverConfig => i ∈ [1, 3, 5, 7]
    | .efiBootServicesApplication => i ∈ [2, 4]
    | .efiBootServicesDriver => i ∈ [0, 2]
    | .efiRuntimeServicesDriver => i ∈ [0, 2]
    | .efiGPTEvent => i = 5
    | .efiPlatformFirmwareBlob => i ∈ [0, 2, 4]
    | .efiVariableAuthority => i = 7
    | _ => true

/-- Modelled from the spec: the wire-format decoder (an external
collaborator, not among the shown sources) produces the bootloader-command
and kernel-command-line payload variants only when bootloader
interpretation (`EnableGrub`) is enabled in the options; otherwise such
records decode as other variants. -/
def decoderRespectsGrubOption (options : LogCheckOptions) (e : Event) : Bool :=
  match e.data with
  | .grubCmd _ _ => options.enableGrub
  | .kernelCmdline _ _ => options.enableGrub
  | _ => true

/-- A concrete hash model used to evaluate witnesses: each algorithm's
digest of a buffer is the buffer itself. -/
def idHash : HashModel :=
  { sha1 := fun d => d, sha256 := fun d => d, sha384 := fun d => d, sha512 := fun d => d }

/-! ### Helper lemmas -/

theorem hash_eq_of_supported (hm : HashModel) (data : Bytes) (alg : AlgorithmId)
    (h : supportedAlg alg = true) : ∃ d, hash hm data alg = some d := by
  cases alg <;> simp_all [hash, supportedAlg]

/-- The digest loop under a NoAction event type compares each recorded
digest against the zero-digest table and nothing else. -/
theorem checkDigestList_noAction (hm : HashModel) (e : Event) (mb : Option Bytes)
    (l : List (AlgorithmId × Bytes)) (h : e.eventType = EventType.noAction) :
    checkDigestList hm e mb l =
      some (l.filterMap fun p =>
        match zeroDigests p.1 with
        | none => none
        | some z =>
            if p.2 = z then none
            else some (ReportEntry.unexpectedDigestValue e p.1 z)) := by
  induction l with
  | nil => simp [checkDigestList]
  | cons hd tl ih =>
      obtain ⟨alg, digest⟩ := hd
      cases hz : zeroDigests alg with
      | none => simp [checkDigestList, isExpectedDigestValue, h, hz, ih]
      | some z =>
          by_cases hdz : digest = z
          · simp [checkDigestList, isExpectedDigestValue, h, hz, hdz, ih]
          · simp [checkDigestList, isExpectedDigestValue, h, hz, hdz, ih]

/-- The digest loop for a non-NoAction event with resolved measured bytes
compares each recorded digest against the hash of the measured bytes. -/
theorem checkDigestList_measured (hm : HashModel) (e : Event) (mb : Bytes)
    (l : List (AlgorithmId × Bytes)) (hne : e.eventType ≠ EventType.noAction)
    (hsup : ∀ p ∈ l, supportedAlg p.1 = true) :
    checkDigestList hm e (some mb) l =
      some (l.filterMap fun p =>
        if p.2 = (hash hm mb p.1).getD [] then none
        else some (ReportEntry.unexpectedDigestValue e p.1 ((hash hm mb p.1).getD []))) := by
  induction l with
  | nil => simp [checkDigestList]
  | cons hd tl ih =>
      obtain ⟨alg, digest⟩ := hd
      obtain ⟨d, hd'⟩ := hash_eq_of_supported hm mb alg (hsup (alg, digest) (by simp))
      have ihx := ih (fun p hp => hsup p (List.mem_cons_of_mem _ hp))
      by_cases hdd : digest = d
      · simp [checkDigestList, isExpectedDigestValue, hne, hd', ihx, hdd]
      · simp [checkDigestList, isExpectedDigestValue, hne, hd', ihx, hdd]

/-- An algorithm on which the hasher does not panic is one of the four
supported identifiers. -/
theorem supported_of_hash_some (hm : HashModel) (mb d : Bytes) (alg : AlgorithmId)
    (h : hash hm mb alg = some d) : supportedAlg alg = true := by
  cases alg <;> simp_all [hash, supportedAlg]

/-- A non-Separator event resolves its measured bytes without panicking. -/
theorem determineMeasuredBytes_noAction (hm : HashModel) (e : Event)
    (order : ByteOrder) (options : LogCheckOptions)
    (h : e.eventType = EventType.noAction) :
    ∃ mb, determineMeasuredBytes hm e order options = some mb := by
  cases hd : e.data <;> simp [determineMeasuredBytes, hd, h]

/-- For a 4-byte in-range buffer, reading it as a 32-bit word yields one
of the two canonical separator values exactly when the buffer is all-zero
or all-ones — in either byte order, which is why the host-order read of
the Go source agrees with the declared-order reading of the spec. -/
theorem getUint32_eq_canonical (ho : ByteOrder) (bs : Bytes)
    (hlen : bs.length = 4) (hvb : ValidBytes bs) :
    (getUint32 ho bs = 0 ∨ getUint32 ho bs = 4294967295) ↔
      (bs = [0, 0, 0, 0] ∨ bs = [255, 255, 255, 255]) := by
  match bs, hlen with
  | [a, b, c, d], _ =>
      have ha := hvb a (by simp)
      have hb := hvb b (by simp)
      have hc := hvb c (by simp)
      have hd := hvb d (by simp)
      cases ho <;> simp [getUint32] <;> omega

/-- The separator normal-value membership test, written out. -/
theorem contains_normal_iff (v : Nat) :
    separatorEventNormalValues.contains v = decide (v = 0 ∨ v = 4294967295) := by
  simp [separatorEventNormalValues]

/-! ### Claim theorems -/

/-- C1: For every event type, every PCR index and every spec version, the
placement check agrees exactly with the table of §4.1, and every index
above 7 is valid regardless of event type and spec version. -/
theorem placement_check_matches_spec_table (t : EventType) (i : Nat) (spec : Spec) :
    isExpectedEventTypeForIndex t i spec = placementSpecTable t i spec ∧
    (7 < i → isExpectedEventTypeForIndex t i spec = true) := by
  constructor
  · cases t <;> simp [isExpectedEventTypeForIndex, placementSpecTable]
  · intro h7
    simp [isExpectedEventTypeForIndex, h7]

/-- C2: For every NoAction event the digest cross-check compares each
present (algorithm, digest) pair against the all-zero digest of that
algorithm's length — independently of the resolved measured bytes, the
byte order and the options — and emits exactly one UnexpectedDigestValue
entry carrying the all-zero expected digest per algorithm whose recorded
digest differs, and none for an algorithm whose recorded digest is
all-zero. -/
theorem noAction_digest_crosscheck (hm : HashModel) (e : Event) (order : ByteOrder)
    (options : LogCheckOptions) (h : e.eventType = EventType.noAction) :
    checkEventDigests hm e order options =
      some (e.digests.filterMap fun p =>
        match zeroDigests p.1 with
        | none => none
        | some z =>
            if p.2 = z then none
            else some (ReportEntry.unexpectedDigestValue e p.1 z)) := by
  obtain ⟨mb, hmb⟩ := determineMeasuredBytes_noAction hm e order options h
  simp [checkEventDigests, hmb, checkDigestList_noAction hm e mb e.digests h]

/-- A NoAction fixture with one matching all-zero digest and one
mismatching digest. -/
def eC2 : Event :=
  { pcrIndex := 0
    eventType := .noAction
    digests := [(.sha1, List.replicate 20 0), (.sha256, [7])]
    data := .opaqueEventData [] }

theorem noAction_digest_crosscheck_witness :
    checkEventDigests idHash eC2 ByteOrder.little ⟨false, false⟩ =
      some [ReportEntry.unexpectedDigestValue eC2 .sha256 (List.replicate 32 0)] := by
  rw [noAction_digest_crosscheck idHash eC2 ByteOrder.little ⟨false, false⟩ rfl]
  decide

/-- C3: A Separator event is classified as an error separator exactly when
the single inspected (first-enumerated) algorithm's recorded digest equals
the hash of the 32-bit value 1 encoded in the log's byte order; an error
separator is exempt from the structural payload checks and its resolved
measured bytes are that 4-byte encoding of 1 rather than the payload. -/
theorem separator_error_classification (hm : HashModel) (e : Event)
    (order hostOrder : ByteOrder) (options : LogCheckOptions)
    (alg : AlgorithmId) (d : Bytes) (rest : List (AlgorithmId × Bytes)) (pl : Bytes)
    (ht : e.eventType = EventType.separator)
    (hdig : e.digests = (alg, d) :: rest)
    (halg : supportedAlg alg = true)
    (hop : e.data = EventData.opaqueEventData pl) :
    isSeparatorEventError hm e order =
      some (decide (d = (hash hm (putUint32 order separatorEventErrorValue) alg).getD []))
    ∧ (isSeparatorEventError hm e order = some true →
        checkEventData hm e order hostOrder = some none
        ∧ determineMeasuredBytes hm e order options =
            some (some (putUint32 order separatorEventErrorValue))) := by
  obtain ⟨h', hh⟩ := hash_eq_of_supported hm (putUint32 order separatorEventErrorValue) alg halg
  refine ⟨by simp [isSeparatorEventError, ht, hdig, hh], fun herr => ⟨?_, ?_⟩⟩
  · simp [checkEventData, ht, herr]
  · simp [determineMeasuredBytes, hop, ht, herr]

/-- An error-separator fixture: under `idHash` the recorded SHA-1 digest
equals the little-endian encoding of 1. -/
def eC3 : Event :=
  { pcrIndex := 4
    eventType := .separator
    digests := [(.sha1, [1, 0, 0, 0])]
    data := .opaqueEventData [5, 6] }

theorem separator_error_classification_witness :
    (isSeparatorEventError idHash eC3 ByteOrder.little =
      some (decide (([1, 0, 0, 0] : Bytes) =
        (hash idHash (putUint32 ByteOrder.little separatorEventErrorValue) .sha1).getD []))
    ∧ (isSeparatorEventError idHash eC3 ByteOrder.little = some true →
        checkEventData idHash eC3 ByteOrder.little ByteOrder.little = some none
        ∧ determineMeasuredBytes idHash eC3 ByteOrder.little ⟨false, false⟩ =
            some (some (putUint32 ByteOrder.little separatorEventErrorValue))))
    ∧ isSeparatorEventError idHash eC3 ByteOrder.little = some true :=
  ⟨separator_error_classification idHash eC3 ByteOrder.little ByteOrder.little
      ⟨false, false⟩ .sha1 [1, 0, 0, 0] [] [5, 6] rfl rfl rfl rfl,
    by decide⟩

/-- C4: A Separator event not classified as an error separator is
reported as InvalidEventData naming the size when its payload is not
exactly 4 bytes; with 4 bytes it passes exactly when the payload word (in
the declared byte order — equivalently, any host byte order) is one of
the two canonical values 0x00000000 / 0xFFFFFFFF, and otherwise is
reported as InvalidEventData; a well-formed normal Separator whose digests
all equal the hash of the payload, at a valid PCR index, produces no
report entries at all. -/
theorem separator_normal_structural (hm : HashModel) (e : Event) (spec : Spec)
    (order hostOrder : ByteOrder) (options : LogCheckOptions) (pl : Bytes)
    (ht : e.eventType = EventType.separator)
    (hop : e.data = EventData.opaqueEventData pl)
    (hvb : ValidBytes pl)
    (hne : isSeparatorEventError hm e order = some false) :
    (pl.length ≠ 4 →
       checkEventData hm e order hostOrder =
         some (some (DataErr.unexpectedSize pl.length)))
    ∧ (pl.length = 4 →
        checkEventData hm e order hostOrder =
          (if getUint32 order pl = 0 ∨ getUint32 order pl = 4294967295
           then some none
           else some (some DataErr.unexpectedSeparatorContents)))
    ∧ (pl.length = 4 →
        (getUint32 order pl = 0 ∨ getUint32 order pl = 4294967295) →
        isExpectedEventTypeForIndex e.eventType e.pcrIndex spec = true →
        (∀ p ∈ e.digests, hash hm pl p.1 = some p.2) →
        checkEvent hm e none spec order hostOrder options = some []) := by
  have hstruct : pl.length = 4 → checkEventData hm e order hostOrder =
      (if getUint32 order pl = 0 ∨ getUint32 order pl = 4294967295 then some none
       else some (some DataErr.unexpectedSeparatorContents)) := by
    intro hlen
    have hiff : (getUint32 hostOrder pl = 0 ∨ getUint32 hostOrder pl = 4294967295) ↔
        (getUint32 order pl = 0 ∨ getUint32 order pl = 4294967295) :=
      (getUint32_eq_canonical hostOrder pl hlen hvb).trans
        (getUint32_eq_canonical order pl hlen hvb).symm
    by_cases hc : getUint32 order pl = 0 ∨ getUint32 order pl = 4294967295
    · rcases hiff.mpr hc with hh | hh <;>
        simp [checkEventData, ht, hne, hop, EventData.bytes, hlen, hc,
          separatorEventNormalValues, hh]
    · have hh := hiff.not.mpr hc
      push_neg at hh
      simp [checkEventData, ht, hne, hop, EventData.bytes, hlen, hc,
        separatorEventNormalValues, hh.1, hh.2]
  refine ⟨?_, hstruct, ?_⟩
  · intro hlen
    simp [checkEventData, ht, hne, hop, EventData.bytes, hlen]
  · intro hlen hcanon hplace hdig
    have hcd : checkEventData hm e order hostOrder = some none := by
      rw [hstruct hlen, if_pos hcanon]
    have hsup : ∀ p ∈ e.digests, supportedAlg p.1 = true := fun p hp =>
      supported_of_hash_some hm pl p.2 p.1 (hdig p hp)
    have hmb : determineMeasuredBytes hm e order options = some (some pl) := by
      simp [determineMeasuredBytes, hop, ht, hne]
    have hcdl := checkDigestList_measured hm e pl e.digests (by rw [ht]; simp) hsup
    have hfm : (e.digests.filterMap fun p =>
        if p.2 = (hash hm pl p.1).getD [] then none
        else some (ReportEntry.unexpectedDigestValue e p.1 ((hash hm pl p.1).getD []))) =
          [] := by
      rw [List.filterMap_eq_nil_iff]
      intro p hp
      simp [hdig p hp]
    simp [checkEvent, hplace, hcd, checkEventDigests, hmb, hcdl, hfm]

/-- A well-formed normal separator fixture: 4-byte all-zero payload,
recorded digest equal to the `idHash` digest of the payload. -/
def eC4 : Event :=
  { pcrIndex := 3
    eventType := .separator
    digests := [(.sha256, [0, 0, 0, 0])]
    data := .opaqueEventData [0, 0, 0, 0] }

theorem separator_normal_structural_witness :
    (((0 : Nat) = 0 ∨ (0 : Nat) = 4294967295) →
      isExpectedEventTypeForIndex eC4.eventType eC4.pcrIndex 2 = true →
      (∀ p ∈ eC4.digests, hash idHash [0, 0, 0, 0] p.1 = some p.2) →
      checkEvent idHash eC4 none 2 ByteOrder.little ByteOrder.big ⟨false, false⟩ =
        some []) ∧
    checkEvent idHash eC4 none 2 ByteOrder.little ByteOrder.big ⟨false, false⟩ =
      some [] := by
  have h := separator_normal_structural idHash eC4 2 ByteOrder.little ByteOrder.big
    ⟨false, false⟩ [0, 0, 0, 0] rfl rfl (by decide) (by decide)
  have h3 := h.2.2 (by decide)
  have hmain : checkEvent idHash eC4 none 2 ByteOrder.little ByteOrder.big
      ⟨false, false⟩ = some [] := by
    have hz : getUint32 ByteOrder.little [0, 0, 0, 0] = 0 := by decide
    exact h3 (by rw [hz]; exact Or.inl rfl) (by decide) (by decide)
  exact ⟨fun _ _ _ => hmain, hmain⟩

/-- A NoAction event carrying an EFI variable record whose recorded digest
equals the `idHash` digest of the full encoded record. -/
def eC5 : Event :=
  { pcrIndex := 0
    eventType := .noAction
    digests := [(.sha1, [1])]
    data := .efiVariable [9] [1] }

/-- C5 counterexample: for an event carrying an EFI variable record with
the quirk off but an event type other than EFIVariableBoot — here
NoAction — the resolved measured bytes are the full encoded record and
the recorded digest equals the hash of that record, yet the cross-check
still reports a mismatch whose expected value is the all-zero digest, so
the expected digest is not the hash of the resolved bytes as the claim
states for "any other event type". -/
theorem efiVariable_expected_digest_counterexample :
    determineMeasuredBytes idHash eC5 ByteOrder.little ⟨false, false⟩ = some (some [1])
    ∧ hash idHash [1] .sha1 = some [1]
    ∧ eC5.digests = [(.sha1, [1])]
    ∧ checkEventDigests idHash eC5 ByteOrder.little ⟨false, false⟩ =
        some [ReportEntry.unexpectedDigestValue eC5 .sha1 (List.replicate 20 0)] := by
  decide

/-- C5 (amended): for every event carrying an EFI variable record, the
resolved measured bytes are the variable's value sub-field exactly when
the type is EFIVariableBoot and the quirk is off, and the full encoded
record in every other case; for every event type other than NoAction the
expected digest per algorithm is then the hash of those resolved bytes,
and the two option settings yield different expected digests whenever the
two hashes differ, at most one of which matches any one recorded
digest. -/
theorem efiVariable_measured_bytes (hm : HashModel) (e : Event) (order : ByteOrder)
    (options : LogCheckOptions) (varData encoded : Bytes)
    (hd : e.data = EventData.efiVariable varData encoded) :
    (e.eventType = EventType.efiVariableBoot → options.efiVariableBootQuirk = false →
       determineMeasuredBytes hm e order options = some (some varData))
    ∧ (¬(e.eventType = EventType.efiVariableBoot ∧
          options.efiVariableBootQuirk = false) →
       determineMeasuredBytes hm e order options = some (some encoded))
    ∧ (e.eventType ≠ EventType.noAction →
       ∀ (alg : AlgorithmId) (digest h1 h2 : Bytes),
         hash hm varData alg = some h1 → hash hm encoded alg = some h2 →
         isExpectedDigestValue hm digest e.eventType alg (some varData) =
           some (decide (digest = h1), some h1)
         ∧ isExpectedDigestValue hm digest e.eventType alg (some encoded) =
           some (decide (digest = h2), some h2)
         ∧ (h1 ≠ h2 → ¬(digest = h1 ∧ digest = h2))) := by
  refine ⟨fun ht hq => ?_, fun hn => ?_, fun hna alg digest h1 h2 hh1 hh2 => ?_⟩
  · simp [determineMeasuredBytes, hd, ht, hq]
  · simp [determineMeasuredBytes, hd, hn]
  · exact ⟨by simp [isExpectedDigestValue, hna, hh1],
      by simp [isExpectedDigestValue, hna, hh2],
      fun h12 hboth => h12 (hboth.1 ▸ hboth.2 ▸ rfl)⟩

/-- An EFIVariableBoot fixture whose value sub-field and full record
differ. -/
def eC5b : Event :=
  { pcrIndex := 1
    eventType := .efiVariableBoot
    digests := [(.sha1, [9])]
    data := .efiVariable [9] [1, 2] }

theorem efiVariable_measured_bytes_witness :
    determineMeasuredBytes idHash eC5b ByteOrder.little ⟨false, false⟩ = some (some [9])
    ∧ determineMeasuredBytes idHash eC5b ByteOrder.little ⟨false, true⟩ =
        some (some [1, 2])
    ∧ isExpectedDigestValue idHash [9] eC5b.eventType .sha1 (some [9]) =
        some (true, some [9])
    ∧ isExpectedDigestValue idHash [9] eC5b.eventType .sha1 (some [1, 2]) =
        some (false, some [1, 2]) := by
  have h := efiVariable_measured_bytes idHash eC5b ByteOrder.little ⟨false, false⟩
    [9] [1, 2] rfl
  have h' := efiVariable_measured_bytes idHash eC5b ByteOrder.little ⟨false, true⟩
    [9] [1, 2] rfl
  refine ⟨h.1 rfl rfl, h'.2.1 (by decide), ?_, ?_⟩
  · have hx := (h.2.2 (by decide) .sha1 [9] [9] [1, 2] rfl rfl).1
    simpa using hx
  · have hx := (h.2.2 (by decide) .sha1 [9] [9] [1, 2] rfl rfl).2.1
    simpa using hx

/-- C6: The driver loop returns the accumulated report with success on a
clean end-of-stream signal, propagates any other stream error as a hard
failure carrying no report, and on an event paired with a recoverable
decode error runs the per-event checks (which append an InvalidEventData
entry carrying that error) and continues with the next pull. -/
theorem driver_loop_behaviour (hm : HashModel) (spec : Spec)
    (order hostOrder : ByteOrder) (options : LogCheckOptions)
    (acc : List ReportEntry) (rest : List PullResult) (e : Event)
    (derr : DataErr) (dO : Option DataErr) (err : Nat) :
    checkLogAux hm spec order hostOrder options acc (PullResult.eofSignal :: rest) =
      some (CheckOutcome.ok acc)
    ∧ checkLogAux hm spec order hostOrder options acc (PullResult.fatal err :: rest) =
      some (CheckOutcome.fail err)
    ∧ checkLogAux hm spec order hostOrder options acc (PullResult.ev e dO :: rest) =
      (match checkEvent hm e dO spec order hostOrder options with
       | none => none
       | some entries =>
           checkLogAux hm spec order hostOrder options (acc ++ entries) rest)
    ∧ (∀ entries,
        checkEvent hm e (some derr) spec order hostOrder options = some entries →
        ReportEntry.invalidEventData e derr ∈ entries) := by
  refine ⟨rfl, rfl, rfl, ?_⟩
  intro entries h
  unfold checkEvent at h
  rcases hcd : checkEventData hm e order hostOrder with _ | eo <;> rw [hcd] at h
  · exact absurd h (by simp)
  · rcases hdg : checkEventDigests hm e order options with _ | l4 <;> rw [hdg] at h
    · exact absurd h (by simp)
    · simp only [Option.some.injEq] at h
      subst h
      simp

/-- An undamaged unknown-type event used to exercise the driver. -/
def eC6 : Event :=
  { pcrIndex := 0
    eventType := .other 99
    digests := []
    data := .opaqueEventData [] }

theorem driver_loop_behaviour_witness :
    checkLogAux idHash 2 ByteOrder.little ByteOrder.little ⟨false, false⟩ []
      [PullResult.eofSignal] = some (CheckOutcome.ok [])
    ∧ ReportEntry.invalidEventData eC6 (DataErr.decode 5) ∈
        [ReportEntry.invalidEventData eC6 (DataErr.decode 5)] := by
  have h := driver_loop_behaviour idHash 2 ByteOrder.little ByteOrder.little
    ⟨false, false⟩ [] [] eC6 (DataErr.decode 5) none 0
  exact ⟨h.1, h.2.2.2 _ (by decide)⟩

/-- One enumeration order of a two-algorithm separator digest map. -/
def eC7a : Event :=
  { pcrIndex := 2
    eventType := .separator
    digests := [(.sha1, [1, 0, 0, 0]), (.sha256, [9])]
    data := .opaqueEventData [0, 0, 0, 0] }

/-- The other enumeration order of the same digest map. -/
def eC7b : Event :=
  { pcrIndex := 2
    eventType := .separator
    digests := [(.sha256, [9]), (.sha1, [1, 0, 0, 0])]
    data := .opaqueEventData [0, 0, 0, 0] }

/-- C7 counterexample: the same decoded Separator event presented under
two enumeration orders of its (unordered) two-algorithm digest map is
classified as an error separator under one order and as a normal
separator under the other, and the digest cross-check emits a different
number of entries, so a re-run that enumerates the map differently does
not produce an identical report. -/
theorem determinism_counterexample :
    eC7a.pcrIndex = eC7b.pcrIndex ∧ eC7a.eventType = eC7b.eventType
    ∧ eC7a.data = eC7b.data ∧ eC7a.digests.Perm eC7b.digests
    ∧ isSeparatorEventError idHash eC7a ByteOrder.little = some true
    ∧ isSeparatorEventError idHash eC7b ByteOrder.little = some false
    ∧ (checkEventDigests idHash eC7a ByteOrder.little ⟨false, false⟩).map
        List.length = some 1
    ∧ (checkEventDigests idHash eC7b ByteOrder.little ⟨false, false⟩).map
        List.length = some 2 := by
  decide

/-- C7 (amended): the per-event checks are deterministic — identical
reports and identical Separator classification — for every fixed sequence
of decoded events, byte order, spec version and options, provided each
event's digest mapping contains at most one algorithm; with several
algorithms the result can depend on the mapping's enumeration order. -/
theorem determinism_single_algorithm (hm : HashModel) (spec : Spec)
    (order hostOrder : ByteOrder) (options : LogCheckOptions) (dO : Option DataErr)
    (e1 e2 : Event)
    (hp : e1.pcrIndex = e2.pcrIndex) (htt : e1.eventType = e2.eventType)
    (hdata : e1.data = e2.data) (hperm : e1.digests.Perm e2.digests)
    (hlen : e1.digests.length ≤ 1) :
    checkEvent hm e1 dO spec order hostOrder options =
      checkEvent hm e2 dO spec order hostOrder options
    ∧ isSeparatorEventError hm e1 order = isSeparatorEventError hm e2 order := by
  have hdig : e1.digests = e2.digests := by
    cases h1 : e1.digests with
    | nil =>
        rw [h1] at hperm
        exact (hperm.symm.eq_nil).symm
    | cons x tl =>
        rw [h1] at hperm hlen
        cases tl with
        | nil => exact (List.perm_singleton.mp hperm.symm).symm
        | cons y tl' => simp at hlen
  have heq : e1 = e2 := by
    cases e1
    cases e2
    simp_all
  rw [heq]
  exact ⟨rfl, rfl⟩

theorem determinism_single_algorithm_witness :
    checkEvent idHash eC3 none 2 ByteOrder.little ByteOrder.little ⟨false, false⟩ =
      checkEvent idHash eC3 none 2 ByteOrder.little ByteOrder.little ⟨false, false⟩
    ∧ isSeparatorEventError idHash eC3 ByteOrder.little =
        isSeparatorEventError idHash eC3 ByteOrder.little :=
  determinism_single_algorithm idHash 2 ByteOrder.little ByteOrder.little
    ⟨false, false⟩ none eC3 eC3 rfl rfl rfl (List.Perm.refl _) (by decide)

/-- Separator-error detection never panics when invoked on a Separator
event whose first-enumerated digest algorithm is supported. -/
theorem isSeparatorEventError_isSome (hm : HashModel) (e : Event) (order : ByteOrder)
    (ht : e.eventType = EventType.separator)
    (hsup : ∀ p ∈ e.digests, supportedAlg p.1 = true) :
    (isSeparatorEventError hm e order).isSome = true := by
  cases hdig : e.digests with
  | nil => simp [isSeparatorEventError, ht, hdig]
  | cons hd tl =>
      obtain ⟨alg, d⟩ := hd
      obtain ⟨h', hh⟩ := hash_eq_of_supported hm (putUint32 order separatorEventErrorValue)
        alg (hsup (alg, d) (by rw [hdig]; simp))
      simp [isSeparatorEventError, ht, hdig, hh]

/-- The structural validator never panics on an event whose digest
algorithms are all supported. -/
theorem checkEventData_isSome (hm : HashModel) (e : Event) (order hostOrder : ByteOrder)
    (hsup : ∀ p ∈ e.digests, supportedAlg p.1 = true) :
    (checkEventData hm e order hostOrder).isSome = true := by
  by_cases hsep : e.eventType = EventType.separator
  · have h1 := isSeparatorEventError_isSome hm e order hsep hsup
    rcases ho : isSeparatorEventError hm e order with _ | b
    · simp [ho] at h1
    · cases b
      · by_cases hs : e.data.bytes.length ≠ 4
        · simp [checkEventData, hsep, ho, hs]
        · simp [checkEventData, hsep, ho, hs]
          split <;> simp
      · simp [checkEventData, hsep, ho]
  · cases ht : e.eventType <;> rw [ht] at hsep <;>
      simp_all [checkEventData] <;> (try (split <;> simp))

/-- The measured-bytes resolver never panics on an event whose digest
algorithms are all supported. -/
theorem determineMeasuredBytes_isSome (hm : HashModel) (e : Event) (order : ByteOrder)
    (options : LogCheckOptions)
    (hsup : ∀ p ∈ e.digests, supportedAlg p.1 = true) :
    (determineMeasuredBytes hm e order options).isSome = true := by
  by_cases hsep : e.eventType = EventType.separator
  · cases hdata : e.data
    · have h1 := isSeparatorEventError_isSome hm e order hsep hsup
      rcases ho : isSeparatorEventError hm e order with _ | b
      · simp [ho] at h1
      · cases b <;> simp [determineMeasuredBytes, hdata, hsep, ho]
    all_goals simp [determineMeasuredBytes, hdata, hsep]
  · cases hdata : e.data
    · cases ht : e.eventType <;> rw [ht] at hsep <;>
        simp_all [determineMeasuredBytes, hdata]
    · cases ht : e.eventType <;> rw [ht] at hsep <;>
        simp_all [determineMeasuredBytes, hdata]
    · by_cases hq : e.eventType = EventType.efiVariableBoot ∧
          options.efiVariableBootQuirk = false <;>
        simp [determineMeasuredBytes, hdata, hq, hsep]
    all_goals (cases ht : e.eventType <;> rw [ht] at hsep <;>
      simp_all [determineMeasuredBytes, hdata])

/-- The per-pair digest check never panics when the algorithm is
supported. -/
theorem isExpectedDigestValue_isSome (hm : HashModel) (d : Bytes) (t : EventType)
    (alg : AlgorithmId) (mb : Option Bytes) (hs : supportedAlg alg = true) :
    (isExpectedDigestValue hm d t alg mb).isSome = true := by
  by_cases hna : t = EventType.noAction
  · cases hz : zeroDigests alg <;> simp [isExpectedDigestValue, hna, hz]
  · cases mb with
    | none => simp [isExpectedDigestValue, hna]
    | some m =>
        obtain ⟨h', hh⟩ := hash_eq_of_supported hm m alg hs
        simp [isExpectedDigestValue, hna, hh]

/-- The digest loop never panics when every listed algorithm is
supported. -/
theorem checkDigestList_isSome (hm : HashModel) (e : Event) (mb : Option Bytes)
    (l : List (AlgorithmId × Bytes))
    (hsup : ∀ p ∈ l, supportedAlg p.1 = true) :
    (checkDigestList hm e mb l).isSome = true := by
  induction l with
  | nil => simp [checkDigestList]
  | cons hd tl ih =>
      obtain ⟨alg, d⟩ := hd
      have hs := hsup (alg, d) (by simp)
      have ihx := ih (fun p hp => hsup p (List.mem_cons_of_mem _ hp))
      have hie := isExpectedDigestValue_isSome hm d e.eventType alg mb hs
      rcases hi : isExpectedDigestValue hm d e.eventType alg mb with _ | ⟨ok, exp⟩
      · simp [hi] at hie
      · rcases hck : checkDigestList hm e mb tl with _ | entries
        · simp [hck] at ihx
        · cases ok <;> simp [checkDigestList, hi, hck]

/-- The whole per-event check never panics when every digest algorithm of
the event is supported. -/
theorem checkEvent_isSome (hm : HashModel) (e : Event) (dO : Option DataErr)
    (spec : Spec) (order hostOrder : ByteOrder) (options : LogCheckOptions)
    (hsup : ∀ p ∈ e.digests, supportedAlg p.1 = true) :
    (checkEvent hm e dO spec order hostOrder options).isSome = true := by
  have hcd := checkEventData_isSome hm e order hostOrder hsup
  have hmb := determineMeasuredBytes_isSome hm e order options hsup
  rcases h1 : checkEventData hm e order hostOrder with _ | eo
  · simp [h1] at hcd
  · rcases h2 : determineMeasuredBytes hm e order options with _ | mb
    · simp [h2] at hmb
    · have hdl := checkDigestList_isSome hm e mb e.digests hsup
      rcases h3 : checkDigestList hm e mb e.digests with _ | l4
      · simp [h3] at hdl
      · simp [checkEvent, h1, checkEventDigests, h2, h3]

/-- C8: under the driver's preconditions — separator-error detection is
only ever reached through event-type dispatch on Separator events, and
every algorithm in an event's digest mapping is one of SHA1, SHA256,
SHA384, SHA512 — the panic branches of the separator-error detector and
the hash dispatcher are unreachable: the per-event check of any event,
and the driver run over any terminated stream, whose digest algorithms
are all supported never produces the panic marker. -/
theorem validation_never_panics (hm : HashModel) (spec : Spec)
    (order hostOrder : ByteOrder) (options : LogCheckOptions) :
    (∀ (e : Event) (dO : Option DataErr),
       (∀ p ∈ e.digests, supportedAlg p.1 = true) →
       (checkEvent hm e dO spec order hostOrder options).isSome = true)
    ∧ (∀ (pulls : List PullResult) (acc : List ReportEntry),
        pulls.any isTerminator = true →
        (∀ (e : Event) (derr : Option DataErr), PullResult.ev e derr ∈ pulls →
          ∀ p ∈ e.digests, supportedAlg p.1 = true) →
        (checkLogAux hm spec order hostOrder options acc pulls).isSome = true) := by
  refine ⟨fun e dO hsup => checkEvent_isSome hm e dO spec order hostOrder options hsup,
    fun pulls => ?_⟩
  induction pulls with
  | nil => intro acc hterm hsup; simp [List.any] at hterm
  | cons p rest ih =>
      intro acc hterm hsup
      cases p with
      | eofSignal => simp [checkLogAux]
      | fatal err => simp [checkLogAux]
      | ev e derr =>
          have hse : ∀ q ∈ e.digests, supportedAlg q.1 = true :=
            hsup e derr (by simp)
          have hce := checkEvent_isSome hm e derr spec order hostOrder options hse
          rcases hc : checkEvent hm e derr spec order hostOrder options with _ | entries
          · simp [hc] at hce
          · have hterm' : rest.any isTerminator = true := by
              simpa [isTerminator] using hterm
            have hrest := ih (acc ++ entries) hterm'
              (fun e' derr' hmem => hsup e' derr' (List.mem_cons_of_mem _ hmem))
            simpa [checkLogAux, hc] using hrest

theorem validation_never_panics_witness :
    (checkEvent idHash eC2 none 2 ByteOrder.little ByteOrder.little
      ⟨false, false⟩).isSome = true
    ∧ (checkLogAux idHash 2 ByteOrder.little ByteOrder.little ⟨false, false⟩ []
        [PullResult.ev eC2 none, PullResult.eofSignal]).isSome = true := by
  have h := validation_never_panics idHash 2 ByteOrder.little ByteOrder.little
    ⟨false, false⟩
  refine ⟨h.1 eC2 none (by decide),
    h.2 [PullResult.ev eC2 none, PullResult.eofSignal] [] (by decide) ?_⟩
  intro e derr hmem p hp
  simp at hmem
  obtain ⟨he, -⟩ := hmem
  subst he
  revert p hp
  decide

/-- C9: for every event whose payload decoded as bootloader-command or
kernel-command-line text — which, by the decoder's contract, happens only
when bootloader interpretation is enabled in the options — the resolved
measured bytes are the decoded text itself rather than its structured
encoding, so the expected digest for each algorithm is the hash of that
text. -/
theorem bootloader_text_measured_bytes (hm : HashModel) (e : Event)
    (order : ByteOrder) (options : LogCheckOptions) (c enc : Bytes)
    (hdec : decoderRespectsGrubOption options e = true)
    (hd : e.data = EventData.grubCmd c enc ∨ e.data = EventData.kernelCmdline c enc) :
    options.enableGrub = true
    ∧ determineMeasuredBytes hm e order options = some (some c)
    ∧ (e.eventType ≠ EventType.noAction →
        ∀ (alg : AlgorithmId) (digest h' : Bytes), hash hm c alg = some h' →
          isExpectedDigestValue hm digest e.eventType alg (some c) =
            some (decide (digest = h'), some h')) := by
  rcases hd with hd | hd <;>
    exact ⟨by simpa [decoderRespectsGrubOption, hd] using hdec,
      by simp [determineMeasuredBytes, hd],
      fun hna alg digest h' hh => by simp [isExpectedDigestValue, hna, hh]⟩

/-- A bootloader-command fixture with bootloader interpretation on. -/
def eC9 : Event :=
  { pcrIndex := 8
    eventType := .ipl
    digests := [(.sha1, [3])]
    data := .grubCmd [3] [9, 9] }

theorem bootloader_text_measured_bytes_witness :
    (⟨true, false⟩ : LogCheckOptions).enableGrub = true
    ∧ determineMeasuredBytes idHash eC9 ByteOrder.little ⟨true, false⟩ =
        some (some [3])
    ∧ isExpectedDigestValue idHash [3] eC9.eventType .sha1 (some [3]) =
        some (true, some [3]) := by
  have h := bootloader_text_measured_bytes idHash eC9 ByteOrder.little ⟨true, false⟩
    [3] [9, 9] (by decide) (Or.inl rfl)
  refine ⟨h.1, h.2.1, ?_⟩
  have hx := h.2.2 (by decide) .sha1 [3] [3] rfl
  simpa using hx

/-- C10: an event whose digest mapping is empty produces no
UnexpectedDigestValue entries (the cross-check loop has nothing to
iterate), and a Separator event with an empty digest mapping is
classified as a normal separator — the error-detection loop inspects no
pair — so it still undergoes the structural payload checks, for example
the 4-byte size check. -/
theorem empty_digest_map_checks (hm : HashModel) (e : Event)
    (order hostOrder : ByteOrder) (options : LogCheckOptions)
    (h : e.digests = []) :
    checkEventDigests hm e order options = some []
    ∧ (e.eventType = EventType.separator →
        isSeparatorEventError hm e order = some false
        ∧ (e.data.bytes.length ≠ 4 →
            checkEventData hm e order hostOrder =
              some (some (DataErr.unexpectedSize e.data.bytes.length)))) := by
  have hsup : ∀ p ∈ e.digests, supportedAlg p.1 = true := by
    rw [h]
    simp
  have hmb := determineMeasuredBytes_isSome hm e order options hsup
  rcases hd : determineMeasuredBytes hm e order options with _ | mb
  · simp [hd] at hmb
  · refine ⟨by simp [checkEventDigests, hd, h, checkDigestList], fun ht => ⟨?_, ?_⟩⟩
    · simp [isSeparatorEventError, ht, h]
    · intro hlen
      simp [checkEventData, ht, isSeparatorEventError, h, hlen]

/-- A digest-less separator with an oversized payload. -/
def eC10 : Event :=
  { pcrIndex := 0
    eventType := .separator
    digests := []
    data := .opaqueEventData [1, 2, 3] }

theorem empty_digest_map_checks_witness :
    checkEventDigests idHash eC10 ByteOrder.little ⟨false, false⟩ = some []
    ∧ isSeparatorEventError idHash eC10 ByteOrder.little = some false
    ∧ checkEventData idHash eC10 ByteOrder.little ByteOrder.little =
        some (some (DataErr.unexpectedSize 3)) := by
  have h := empty_digest_map_checks idHash eC10 ByteOrder.little ByteOrder.little
    ⟨false, false⟩ rfl
  have h2 := h.2 rfl
  exact ⟨h.1, h2.1, h2.2 (by decide)⟩

end TCGLog
